import Mathlib

/-!
Shallow embedding of the PII classification-and-redaction engine of
`detector-python.py` (the `process_record` function together with its rule
tables, regular-expression validators and redaction transforms).

Modelling conventions:
* A JSON value is `Value`: a string, an integer number, `null`, or a nested
  object (a list of key/value entries in insertion order).  Floating-point
  numbers, booleans and arrays are not modelled; no claim concerns them.
* A record (Python `dict`) is an insertion-ordered association list
  `List (String × Value)`; theorems that rely on dictionary key-uniqueness
  take a `Nodup` hypothesis on the key list.
* Python string indexing/slicing is by code point, exactly as Lean's
  `String.data : List Char`.  Python slices `s[:n]` / `s[-n:]` are total and
  are embedded as `List.take` / `List.drop (length - n)`.
* The regex character classes `\w`, `\d`, `\s` are modelled by their ASCII
  parts (`[A-Za-z0-9_]`, `[0-9]`, `[ \t\n\r\x0b\x0c]`); the explicit ASCII
  classes of `EMAIL_REGEX` are modelled exactly.
* `re.Pattern.match` anchors at the start of the string only; each compiled
  pattern of the source is embedded as a decidable Bool-valued function whose
  equivalence with the backtracking regex is justified in its doc comment.
-/

set_option autoImplicit false

namespace PII

/-- Value of a record field: string, number, null, or a nested object.
Mirrors the shapes `json.loads` can put into a record that the spec's data
model names (string, number, null, nested structure). -/
inductive Value where
  | str : String → Value
  | num : Int → Value
  | null : Value
  | nested : List (String × Value) → Value

/-- Record: an insertion-ordered mapping from field name to value (a Python
`dict` decoded from JSON). -/
abbrev Record := List (String × Value)

/-- Python `isinstance(value, str)`. -/
def isStr : Value → Bool
  | .str _ => true
  | _ => false

/-- Python truthiness (`if data[key]:`): empty string, zero, `None` and the
empty object are falsy; everything else is truthy. -/
def truthy : Value → Bool
  | .str s => !s.isEmpty
  | .num n => n != 0
  | .null => false
  | .nested l => !l.isEmpty

mutual
/-- Python `repr` of a value (simplified: quote-escaping inside strings is not
modelled; no claim evaluates `repr` on a string containing a quote). -/
def pyRepr : Value → String
  | .str s => "'" ++ s ++ "'"
  | .num n => toString n
  | .null => "None"
  | .nested l => "\x7b" ++ pyReprEntries l ++ "\x7d"

/-- Python `repr` of the entries of a dict, comma-separated. -/
def pyReprEntries : List (String × Value) → String
  | [] => ""
  | [(k, v)] => "'" ++ k ++ "': " ++ pyRepr v
  | (k, v) :: e :: rest => "'" ++ k ++ "': " ++ pyRepr v ++ ", " ++ pyReprEntries (e :: rest)
end

/-- Python `str(value)`: identity on strings, decimal rendering of numbers,
`"None"` for null, `repr` for a nested object. -/
def pyStr : Value → String
  | .str s => s
  | .num n => toString n
  | .null => "None"
  | .nested l => pyRepr (.nested l)

/-! ### Character classes of the regular expressions -/

/-- Regex `\w` (ASCII part): letters, digits and underscore. -/
def isWordChar (c : Char) : Bool := c.isAlphanum || c == '_'

/-- Regex `\s` (ASCII part): the six ASCII whitespace characters; also the
whitespace set of Python `str.split()` with no argument. -/
def isSpaceChar (c : Char) : Bool :=
  c == ' ' || c == '\t' || c == '\n' || c == '\r' || c == '\x0b' || c == '\x0c'

/-- Character class `[\w.-]` of `UPI_REGEX`. -/
def isUpiChar (c : Char) : Bool := isWordChar c || c == '.' || c == '-'

/-- Character class `[a-zA-Z0-9._%+-]` (local part of `EMAIL_REGEX`). -/
def isLocalChar (c : Char) : Bool :=
  c.isAlphanum || c == '.' || c == '_' || c == '%' || c == '+' || c == '-'

/-- Character class `[a-zA-Z0-9.-]` (domain part of `EMAIL_REGEX`). -/
def isDomChar (c : Char) : Bool := c.isAlphanum || c == '.' || c == '-'

/-! ### The compiled patterns, as `re.Pattern.match` (anchored at the start) -/

/-- Word-boundary `\b` placed after a word character: it holds exactly when
the remaining input is empty or starts with a non-word character. -/
def noWordNext : List Char → Bool
  | [] => true
  | c :: _ => !isWordChar c

/-- PHONE_REGEX `\b\d{10}\b` under `re.match`: ten leading digits followed by
a word boundary.  The leading `\b` is implied by the first digit being a word
character at position 0. -/
def phoneMatch (s : String) : Bool :=
  decide ((s.data.take 10).length = 10) && (s.data.take 10).all Char.isDigit &&
    noWordNext (s.data.drop 10)

/-- Consume exactly four digits, returning the rest of the input. -/
def digits4 : List Char → Option (List Char)
  | a :: b :: c :: d :: rest =>
    if a.isDigit && b.isDigit && c.isDigit && d.isDigit then some rest else none
  | _ => none

/-- Greedy `\s?`: drop one whitespace character if present.  In
`AADHAR_REGEX` the non-greedy alternative can never succeed where the greedy
one fails (the following `\d{4}` cannot start at a whitespace character), so
the deterministic embedding is exact. -/
def dropOneSpace : List Char → List Char
  | [] => []
  | c :: rest => if isSpaceChar c then rest else c :: rest

/-- AADHAR_REGEX `\b\d{4}\s?\d{4}\s?\d{4}\b` under `re.match`. -/
def aadharMatch (s : String) : Bool :=
  match digits4 s.data with
  | none => false
  | some r1 =>
    match digits4 (dropOneSpace r1) with
    | none => false
    | some r2 =>
      match digits4 (dropOneSpace r2) with
      | none => false
      | some r3 => noWordNext r3

/-- PASSPORT_REGEX `\b[A-Z]\d{7}\b` under `re.match`: an uppercase letter,
seven digits, then a word boundary. -/
def passportMatch (s : String) : Bool :=
  match s.data with
  | [] => false
  | c :: rest =>
    c.isUpper && decide ((rest.take 7).length = 7) && (rest.take 7).all Char.isDigit &&
      noWordNext (rest.drop 7)

/-- UPI_REGEX `[\w.-]+@[\w.-]+` under `re.match` (prefix match, trailing
characters tolerated).  Since `@` is not in the class `[\w.-]`, the first
`+` can only be followed by `@` at the end of the maximal run of class
characters, so the backtracking search is deterministic: the string matches
iff it starts with a non-empty run of class characters, then `@`, then at
least one more class character. -/
def upiMatch (s : String) : Bool :=
  let run := s.data.takeWhile isUpiChar
  decide (run ≠ []) &&
    (match s.data.drop run.length with
     | '@' :: c :: _ => isUpiChar c
     | _ => false)

/-- Domain-and-TLD tail `[a-zA-Z0-9.-]+\.[a-zA-Z]{2,}` of `EMAIL_REGEX`,
required to span the whole remaining input: some dot position `i ≥ 1` splits
it into a non-empty domain run and a trailing all-alphabetic label of length
at least 2.  The regex's backtracking succeeds iff some split does. -/
def domainTail (r : List Char) : Bool :=
  (List.range r.length).any fun i =>
    decide (0 < i) && (r.getD i ' ' == '.') && (r.take i).all isDomChar &&
      decide (i + 3 ≤ r.length) && (r.drop (i + 1)).all Char.isAlpha

/-- EMAIL_REGEX `^[a-zA-Z0-9._%+-]+@[a-zA-Z0-9.-]+\.[a-zA-Z]{2,}$` without
the `$`-before-final-newline allowance: non-empty local run (`@` is not a
local character, so the run is exactly the maximal one), `@`, then
`domainTail` to the end. -/
def emailCore (cs : List Char) : Bool :=
  let l := cs.takeWhile isLocalChar
  decide (l ≠ []) &&
    (match cs.drop l.length with
     | '@' :: r => domainTail r
     | _ => false)

/-- EMAIL_REGEX under `re.match`, including Python's `$` semantics: `$` also
matches just before a single final newline. -/
def emailMatch (s : String) : Bool :=
  emailCore s.data ||
    (match s.data.getLast? with
     | some c => c == '\n' && emailCore s.data.dropLast
     | none => false)

/-! ### Rule tables -/

/-- Key set of the `STANDALONE_PII_FIELDS` dict, in declaration order. -/
def STANDALONE_PII_FIELDS : List String :=
  ["phone", "contact", "aadhar", "passport", "upi_id"]

/-- The `COMBINATORIAL_PII_FIELDS` list of the source. -/
def COMBINATORIAL_PII_FIELDS : List String :=
  ["name", "email", "address", "device_id", "ip_address"]

/-- Python `key in STANDALONE_PII_FIELDS and STANDALONE_PII_FIELDS[key].match(value)`:
dispatch to the registered validator; false for unregistered keys. -/
def standaloneMatch (key value : String) : Bool :=
  if key == "phone" || key == "contact" then phoneMatch value
  else if key == "aadhar" then aadharMatch value
  else if key == "passport" then passportMatch value
  else if key == "upi_id" then upiMatch value
  else false

/-! ### Python string helpers used by the redaction functions -/

/-- Worker for Python `str.split()` with no argument: split on runs of
whitespace, discarding empty tokens.  `acc` holds the current token in
reverse. -/
def splitWSGo : List Char → List Char → List (List Char)
  | [], acc => if acc.isEmpty then [] else [acc.reverse]
  | c :: rest, acc =>
    if isSpaceChar c then
      if acc.isEmpty then splitWSGo rest [] else acc.reverse :: splitWSGo rest []
    else splitWSGo rest (c :: acc)

/-- Python `str.split()` with no argument, on the character list. -/
def splitWS (cs : List Char) : List (List Char) := splitWSGo cs []

/-- Worker for Python `str.split(sep)` with a one-character separator:
split at every occurrence, keeping empty pieces. -/
def splitOnGo (sep : Char) : List Char → List Char → List (List Char)
  | [], acc => [acc.reverse]
  | c :: rest, acc =>
    if c == sep then acc.reverse :: splitOnGo sep rest []
    else splitOnGo sep rest (c :: acc)

/-- Python `value.split(sep)` for a one-character separator. -/
def pySplitOn (sep : Char) (cs : List Char) : List (List Char) := splitOnGo sep cs []

/-- Python `" ".join(tokens)`. -/
def joinSpaceL : List (List Char) → List Char
  | [] => []
  | [t] => t
  | t :: t' :: rest => t ++ ' ' :: joinSpaceL (t' :: rest)

/-! ### Redaction functions -/

/-- Source `redact_phone`: `value[:2] + "XXXXXX" + value[-2:]`. -/
def redact_phone (value : String) : String :=
  ⟨value.data.take 2 ++ "XXXXXX".data ++ value.data.drop (value.data.length - 2)⟩

/-- Source `redact_aadhar`: `value.replace(" ", "")`, then
`clean[:4] + " XXXX " + clean[-4:]`. -/
def redact_aadhar (value : String) : String :=
  let clean := value.data.filter fun c => c != ' '
  ⟨clean.take 4 ++ " XXXX ".data ++ clean.drop (clean.length - 4)⟩

/-- Source `redact_passport`: `value[0] + "XXXXXX" + value[-1]`.  Indexing a
Python string raises `IndexError` on the empty string, embedded as `none`;
both indexings fail exactly on the empty input. -/
def redact_passport (value : String) : Option String :=
  match value.data with
  | [] => none
  | c :: rest => some ⟨c :: "XXXXXX".data ++ [(c :: rest).getLast (List.cons_ne_nil c rest)]⟩

/-- Source `redact_generic_id`: split on `@`; with exactly two pieces, keep
the first 2 and last 1 characters of the local part and mask the middle with
`len(user) - 3` copies of `X` (or collapse the whole local part to `"X"`
when it has at most 2 characters) and keep the domain; with any other number
of pieces the tuple unpacking raises `ValueError`, caught and turned into
the fixed placeholder. -/
def redact_generic_id (value : String) : String :=
  match pySplitOn '@' value.data with
  | [user, domain] =>
    if 2 < user.length then
      ⟨user.take 2 ++ List.replicate (user.length - 3) 'X' ++
        user.drop (user.length - 1) ++ '@' :: domain⟩
    else ⟨'X' :: '@' :: domain⟩
  | _ => "[REDACTED_ID]"

/-- Source `redact_name`: split on whitespace; for each token of length > 1
keep the first character and append `len(p) - 1` copies of `X`; rejoin with
single spaces. -/
def redact_name (value : String) : String :=
  ⟨joinSpaceL ((splitWS value.data).map fun p =>
    if 1 < p.length then p.take 1 ++ List.replicate (p.length - 1) 'X' else p)⟩

/-- Source `redact_text`: `"[REDACTED_" + str(len(value)) + "_CHARS]"`. -/
def redact_text (value : String) : String :=
  "[REDACTED_" ++ toString value.data.length ++ "_CHARS]"

/-! ### Record operations -/

/-- Python `data[key]` / `key in data`: first entry with the given key. -/
def lookup : Record → String → Option Value
  | [], _ => none
  | (k, v) :: rest, key => if k == key then some v else lookup rest key

/-- Python `redacted_data[key] = nv` for a key already present: replace the
value in place, keeping insertion order.  Every update performed by
`process_record` targets a key copied from the input record, so the
no-op on a missing key is unreachable there. -/
def update : Record → String → Value → Record
  | [], _, _ => []
  | (k, v) :: rest, key, nv =>
    if k == key then (k, nv) :: rest else (k, v) :: update rest key nv

/-- Per-key standalone transform dispatch of `process_record`'s `if/elif`
chain, as a function: which masked string replaces a matched `value` under
`key`.  `none` for a key the chain does not assign (no standalone key) or
when the transform raises (`redact_passport` on the empty string). -/
def redactStandalone (key value : String) : Option String :=
  if key == "phone" || key == "contact" then some (redact_phone value)
  else if key == "aadhar" then some (redact_aadhar value)
  else if key == "passport" then redact_passport value
  else if key == "upi_id" then some (redact_generic_id value)
  else none

/-! ### The record processor -/

/-- Body of the standalone-redaction `if/elif` chain of `process_record` for
one matched key: returns the updated redacted record, `none` when the
invoked transform raises (only `redact_passport` on an empty string can).
The final `else` mirrors the chain falling through with no assignment,
which is unreachable for keys of the standalone table. -/
def spStep (key s : String) (red : Record) : Option Record :=
  if key == "phone" || key == "contact" then
    some (update red key (Value.str (redact_phone s)))
  else if key == "aadhar" then
    some (update red key (Value.str (redact_aadhar s)))
  else if key == "passport" then
    match redact_passport s with
    | some r => some (update red key (Value.str r))
    | none => none
  else if key == "upi_id" then
    some (update red key (Value.str (redact_generic_id s)))
  else some red

/-- Step 1 of `process_record`: iterate the record's entries in order; for
each string value whose key has a registered validator that matches, set the
PII flag and redact that key in the output record. -/
def standalonePass : List (String × Value) → Record → Bool → Option (Record × Bool)
  | [], red, flag => some (red, flag)
  | (key, v) :: rest, red, flag =>
    match v with
    | Value.str s =>
      if standaloneMatch key s then
        match spStep key s red with
        | some red' => standalonePass rest red' true
        | none => none
      else standalonePass rest red flag
    | _ => standalonePass rest red flag

/-- Step 2 of `process_record`, per key: `key in data and data[key]`, then
the name check `len(str(data[key]).split()) < 2` and the email check
`EMAIL_REGEX.match(str(data[key]))` can veto the key. -/
def comboEligible (data : Record) (key : String) : Bool :=
  match lookup data key with
  | none => false
  | some v =>
    truthy v &&
      !(key == "name" && decide ((splitWS (pyStr v).data).length < 2)) &&
      !(key == "email" && !emailMatch (pyStr v))

/-- Step 3 of `process_record`, per collected key: redact `str(data[key])`
with the transform selected by the key.  Eligibility guarantees the key is
present, so the `null` default of the lookup is never used. -/
def comboRedact (data : Record) (red : Record) (key : String) : Record :=
  let value := pyStr ((lookup data key).getD Value.null)
  if key == "name" then update red key (Value.str (redact_name value))
  else if key == "email" then update red key (Value.str (redact_generic_id value))
  else if key == "address" || key == "ip_address" || key == "device_id" then
    update red key (Value.str (redact_text value))
  else red

/-- Source `process_record`: standalone pass over a copy of the record, then
the combinatorial pass; when at least two combinatorial fields are eligible,
all of them are redacted and the record is flagged.  `none` embeds an
uncaught exception (provably unreachable, see `process_record_total`). -/
def process_record (data : Record) : Option (Record × Bool) :=
  match standalonePass data data false with
  | none => none
  | some (red, flag) =>
    if 2 ≤ (COMBINATORIAL_PII_FIELDS.filter (comboEligible data)).length then
      some ((COMBINATORIAL_PII_FIELDS.filter (comboEligible data)).foldl
        (comboRedact data) red, true)
    else some (red, flag)

end PII

namespace PII

/-! ### Lemmas about record lookup and update -/

theorem lookup_update_ne (r : Record) (key k : String) (nv : Value) (h : k ≠ key) :
    lookup (update r key nv) k = lookup r k := by
  induction r with
  | nil => rfl
  | cons hd tl ih =>
    obtain ⟨k', v'⟩ := hd
    simp only [update]
    by_cases hk : k' = key
    · subst hk
      have hne : (k' == k) = false := beq_eq_false_iff_ne.mpr fun e => h e.symm
      simp [lookup, hne]
    · have hk' : (k' == key) = false := beq_eq_false_iff_ne.mpr hk
      simp only [hk', Bool.false_eq_true, if_false, lookup, ih]

theorem lookup_update_self (r : Record) (key : String) (nv : Value)
    (h : key ∈ r.map Prod.fst) :
    lookup (update r key nv) key = some nv := by
  induction r with
  | nil => simp at h
  | cons hd tl ih =>
    obtain ⟨k', v'⟩ := hd
    simp only [update]
    by_cases hk : k' = key
    · subst hk; simp [lookup]
    · have hk' : (k' == key) = false := beq_eq_false_iff_ne.mpr hk
      simp only [List.map_cons, List.mem_cons] at h
      rcases h with h | h
      · exact absurd h.symm hk
      · simp only [hk', Bool.false_eq_true, if_false, lookup, ih h]

theorem update_keys (r : Record) (key : String) (nv : Value) :
    (update r key nv).map Prod.fst = r.map Prod.fst := by
  induction r with
  | nil => rfl
  | cons hd tl ih =>
    obtain ⟨k', v'⟩ := hd
    simp only [update]
    by_cases hk : k' = key
    · subst hk; simp
    · have hk' : (k' == key) = false := beq_eq_false_iff_ne.mpr hk
      simp [hk', ih]

theorem lookup_mem (r : Record) (k : String) (v : Value)
    (h : lookup r k = some v) : (k, v) ∈ r := by
  induction r with
  | nil => simp [lookup] at h
  | cons hd tl ih =>
    obtain ⟨k', v'⟩ := hd
    simp only [lookup] at h
    by_cases hk : k' = k
    · subst hk
      simp only [beq_self_eq_true, if_true, Option.some.injEq] at h
      subst h; exact List.mem_cons_self _ _
    · have hk' : (k' == k) = false := beq_eq_false_iff_ne.mpr hk
      simp only [hk', Bool.false_eq_true, if_false] at h
      exact List.mem_cons_of_mem _ (ih h)

theorem lookup_eq_of_mem (r : Record) (k : String) (v : Value)
    (hnd : (r.map Prod.fst).Nodup) (h : (k, v) ∈ r) : lookup r k = some v := by
  induction r with
  | nil => simp at h
  | cons hd tl ih =>
    obtain ⟨k', v'⟩ := hd
    simp only [List.map_cons, List.nodup_cons] at hnd
    rcases List.mem_cons.mp h with h | h
    · obtain ⟨h1, h2⟩ := Prod.mk.injEq .. ▸ h
      subst h1; subst h2; simp [lookup]
    · have hk : k' ≠ k := by
        intro e; subst e
        exact hnd.1 (List.mem_map_of_mem Prod.fst h)
      have hk' : (k' == k) = false := beq_eq_false_iff_ne.mpr hk
      simp only [lookup, hk', Bool.false_eq_true, if_false]
      exact ih hnd.2 h

theorem lookup_mem_keys (r : Record) (k : String) (v : Value)
    (h : lookup r k = some v) : k ∈ r.map Prod.fst :=
  List.mem_map_of_mem Prod.fst (lookup_mem r k v h)

end PII

namespace PII

/-! ### Facts about the standalone validators and the per-key step -/

theorem redact_passport_some (s : String) (h : passportMatch s = true) :
    ∃ r, redact_passport s = some r := by
  cases hd : s.data with
  | nil => simp [passportMatch, hd] at h
  | cons c rest =>
    refine ⟨⟨c :: "XXXXXX".data ++ [(c :: rest).getLast (List.cons_ne_nil c rest)]⟩, ?_⟩
    simp only [redact_passport, hd]

theorem standaloneMatch_mem (k s : String) (h : standaloneMatch k s = true) :
    k ∈ STANDALONE_PII_FIELDS := by
  unfold standaloneMatch at h
  split_ifs at h with h1 h2 h3 h4
  · rcases Bool.or_eq_true _ _ |>.mp h1 with h' | h' <;>
      simp [STANDALONE_PII_FIELDS, eq_of_beq h']
  · simp [STANDALONE_PII_FIELDS, eq_of_beq h2]
  · simp [STANDALONE_PII_FIELDS, eq_of_beq h3]
  · simp [STANDALONE_PII_FIELDS, eq_of_beq h4]

theorem standaloneMatch_not_mem (k : String) (hk : k ∉ STANDALONE_PII_FIELDS)
    (s : String) : standaloneMatch k s = false := by
  cases hm : standaloneMatch k s with
  | false => rfl
  | true => exact absurd (standaloneMatch_mem k s hm) hk

theorem spStep_of_match (key s : String) (red : Record)
    (hm : standaloneMatch key s = true) :
    ∃ r, redactStandalone key s = some r ∧
      spStep key s red = some (update red key (Value.str r)) := by
  unfold spStep redactStandalone
  split_ifs with h1 h2 h3 h4
  · exact ⟨_, rfl, rfl⟩
  · exact ⟨_, rfl, rfl⟩
  · have hp : passportMatch s = true := by
      unfold standaloneMatch at hm
      rw [if_neg h1, if_neg h2, if_pos h3] at hm
      exact hm
    obtain ⟨r, hr⟩ := redact_passport_some s hp
    rw [hr]
    exact ⟨r, rfl, rfl⟩
  · exact ⟨_, rfl, rfl⟩
  · exfalso
    unfold standaloneMatch at hm
    rw [if_neg h1, if_neg h2, if_neg h3, if_neg h4] at hm
    exact absurd hm (by simp)

theorem spStep_shape (key s : String) (red red' : Record)
    (h : spStep key s red = some red') :
    red' = red ∨ ∃ nv, red' = update red key nv := by
  unfold spStep at h
  split_ifs at h with h1 h2 h3 h4
  · exact Or.inr ⟨_, (Option.some.injEq _ _ ▸ h).symm⟩
  · exact Or.inr ⟨_, (Option.some.injEq _ _ ▸ h).symm⟩
  · cases hrp : redact_passport s with
    | none => rw [hrp] at h; cases h
    | some r =>
      rw [hrp] at h
      exact Or.inr ⟨_, (Option.some.injEq _ _ ▸ h).symm⟩
  · exact Or.inr ⟨_, (Option.some.injEq _ _ ▸ h).symm⟩
  · exact Or.inl (Option.some.injEq _ _ ▸ h).symm

theorem spStep_lookup_ne (key s : String) (red red' : Record)
    (h : spStep key s red = some red') (k : String) (hk : k ≠ key) :
    lookup red' k = lookup red k := by
  rcases spStep_shape key s red red' h with rfl | ⟨nv, rfl⟩
  · rfl
  · exact lookup_update_ne red key k nv hk

theorem spStep_keys (key s : String) (red red' : Record)
    (h : spStep key s red = some red') :
    red'.map Prod.fst = red.map Prod.fst := by
  rcases spStep_shape key s red red' h with rfl | ⟨nv, rfl⟩
  · rfl
  · exact update_keys red key nv

end PII

namespace PII

/-! ### Lemmas about the standalone pass -/

theorem sp_true (items : List (String × Value)) :
    ∀ red : Record, ∃ red', standalonePass items red true = some (red', true) := by
  induction items with
  | nil => intro red; exact ⟨red, rfl⟩
  | cons hd tl ih =>
    intro red
    obtain ⟨key, v⟩ := hd
    cases v with
    | str s =>
      simp only [standalonePass]
      cases hm : standaloneMatch key s with
      | true =>
        obtain ⟨r, _, hstep⟩ := spStep_of_match key s red hm
        rw [hstep]
        simp only [if_true]
        exact ih _
      | false => simp only [Bool.false_eq_true, if_false]; exact ih red
    | num n => simp only [standalonePass]; exact ih red
    | null => simp only [standalonePass]; exact ih red
    | nested l => simp only [standalonePass]; exact ih red

theorem sp_some (items : List (String × Value)) :
    ∀ (red : Record) (flag : Bool), ∃ out, standalonePass items red flag = some out := by
  induction items with
  | nil => intro red flag; exact ⟨(red, flag), rfl⟩
  | cons hd tl ih =>
    intro red flag
    obtain ⟨key, v⟩ := hd
    cases v with
    | str s =>
      simp only [standalonePass]
      cases hm : standaloneMatch key s with
      | true =>
        obtain ⟨r, _, hstep⟩ := spStep_of_match key s red hm
        rw [hstep]
        simp only [if_true]
        exact ih _ _
      | false => simp only [Bool.false_eq_true, if_false]; exact ih red flag
    | num n => simp only [standalonePass]; exact ih red flag
    | null => simp only [standalonePass]; exact ih red flag
    | nested l => simp only [standalonePass]; exact ih red flag

theorem sp_keys (items : List (String × Value)) :
    ∀ (red : Record) (flag : Bool) (red' : Record) (b : Bool),
      standalonePass items red flag = some (red', b) →
      red'.map Prod.fst = red.map Prod.fst := by
  induction items with
  | nil =>
    intro red flag red' b h
    simp only [standalonePass, Option.some.injEq, Prod.mk.injEq] at h
    rw [h.1]
  | cons hd tl ih =>
    intro red flag red' b h
    obtain ⟨key, v⟩ := hd
    cases v with
    | str s =>
      simp only [standalonePass] at h
      cases hm : standaloneMatch key s with
      | true =>
        rw [hm] at h
        simp only [if_true] at h
        cases hstep : spStep key s red with
        | none => rw [hstep] at h; cases h
        | some red'' =>
          rw [hstep] at h
          exact (ih red'' true red' b h).trans (spStep_keys key s red red'' hstep)
      | false =>
        rw [hm] at h
        simp only [Bool.false_eq_true, if_false] at h
        exact ih red flag red' b h
    | num n => simp only [standalonePass] at h; exact ih red flag red' b h
    | null => simp only [standalonePass] at h; exact ih red flag red' b h
    | nested l => simp only [standalonePass] at h; exact ih red flag red' b h

theorem sp_frame (items : List (String × Value)) (k : String)
    (hfr : ∀ s, (k, Value.str s) ∈ items → standaloneMatch k s = false) :
    ∀ (red : Record) (flag : Bool) (red' : Record) (b : Bool),
      standalonePass items red flag = some (red', b) →
      lookup red' k = lookup red k := by
  induction items with
  | nil =>
    intro red flag red' b h
    simp only [standalonePass, Option.some.injEq, Prod.mk.injEq] at h
    rw [h.1]
  | cons hd tl ih =>
    intro red flag red' b h
    obtain ⟨key, v⟩ := hd
    have hfr' : ∀ s, (k, Value.str s) ∈ tl → standaloneMatch k s = false :=
      fun s hs => hfr s (List.mem_cons_of_mem _ hs)
    cases v with
    | str s =>
      simp only [standalonePass] at h
      cases hm : standaloneMatch key s with
      | true =>
        have hkey : k ≠ key := by
          intro e; subst e
          exact absurd hm (by rw [hfr s (List.mem_cons_self _ _)]; simp)
        rw [hm] at h
        simp only [if_true] at h
        cases hstep : spStep key s red with
        | none => rw [hstep] at h; cases h
        | some red'' =>
          rw [hstep] at h
          rw [ih hfr' red'' true red' b h]
          exact spStep_lookup_ne key s red red'' hstep k hkey
      | false =>
        rw [hm] at h
        simp only [Bool.false_eq_true, if_false] at h
        exact ih hfr' red flag red' b h
    | num n => simp only [standalonePass] at h; exact ih hfr' red flag red' b h
    | null => simp only [standalonePass] at h; exact ih hfr' red flag red' b h
    | nested l => simp only [standalonePass] at h; exact ih hfr' red flag red' b h

theorem sp_id (items : List (String × Value))
    (hfr : ∀ k s, (k, Value.str s) ∈ items → standaloneMatch k s = false) :
    ∀ (red : Record) (flag : Bool), standalonePass items red flag = some (red, flag) := by
  induction items with
  | nil => intro red flag; rfl
  | cons hd tl ih =>
    intro red flag
    obtain ⟨key, v⟩ := hd
    have hfr' : ∀ k s, (k, Value.str s) ∈ tl → standaloneMatch k s = false :=
      fun k s hs => hfr k s (List.mem_cons_of_mem _ hs)
    cases v with
    | str s =>
      simp only [standalonePass]
      rw [hfr key s (List.mem_cons_self _ _)]
      simp only [Bool.false_eq_true, if_false]
      exact ih hfr' red flag
    | num n => simp only [standalonePass]; exact ih hfr' red flag
    | null => simp only [standalonePass]; exact ih hfr' red flag
    | nested l => simp only [standalonePass]; exact ih hfr' red flag

theorem sp_hit (items : List (String × Value)) (k s : String) :
    ∀ (red : Record) (flag : Bool),
      (items.map Prod.fst).Nodup → (k, Value.str s) ∈ items →
      standaloneMatch k s = true → k ∈ red.map Prod.fst →
      ∃ red' r, standalonePass items red flag = some (red', true) ∧
        redactStandalone k s = some r ∧ lookup red' k = some (Value.str r) := by
  induction items with
  | nil => intro red flag _ hmem; simp at hmem
  | cons hd tl ih =>
    intro red flag hnd hmem hm hk
    rcases List.mem_cons.mp hmem with hhd | htl
    · subst hhd
      simp only [List.map_cons, List.nodup_cons] at hnd
      simp only [standalonePass]
      rw [hm]
      simp only [if_true]
      obtain ⟨r, hrs, hstep⟩ := spStep_of_match k s red hm
      rw [hstep]
      obtain ⟨red', hsp⟩ := sp_true tl (update red k (Value.str r))
      refine ⟨red', r, hsp, hrs, ?_⟩
      have hknotin : ∀ s', (k, Value.str s') ∈ tl → standaloneMatch k s' = false := by
        intro s' hmem'
        exact absurd (List.mem_map_of_mem Prod.fst hmem') hnd.1
      rw [sp_frame tl k hknotin _ _ _ _ hsp]
      exact lookup_update_self red k (Value.str r) hk
    · obtain ⟨key, v⟩ := hd
      simp only [List.map_cons, List.nodup_cons] at hnd
      have hkey : key ≠ k := by
        intro e; subst e
        exact hnd.1 (List.mem_map_of_mem Prod.fst htl)
      cases v with
      | str s' =>
        simp only [standalonePass]
        cases hm' : standaloneMatch key s' with
        | true =>
          obtain ⟨r', _, hstep⟩ := spStep_of_match key s' red hm'
          rw [hstep]
          simp only [if_true]
          refine ih _ true hnd.2 htl hm ?_
          rw [update_keys]
          exact hk
        | false =>
          simp only [Bool.false_eq_true, if_false]
          exact ih red flag hnd.2 htl hm hk
      | num n => simp only [standalonePass]; exact ih red flag hnd.2 htl hm hk
      | null => simp only [standalonePass]; exact ih red flag hnd.2 htl hm hk
      | nested l => simp only [standalonePass]; exact ih red flag hnd.2 htl hm hk

end PII

namespace PII

/-! ### Lemmas about the combinatorial pass and the processor -/

theorem comboRedact_lookup_ne (data red : Record) (key k : String) (hk : k ≠ key) :
    lookup (comboRedact data red key) k = lookup red k := by
  unfold comboRedact
  split_ifs with h1 h2 h3
  · exact lookup_update_ne red key k _ hk
  · exact lookup_update_ne red key k _ hk
  · exact lookup_update_ne red key k _ hk
  · rfl

theorem comboFold_frame (data : Record) (k : String) :
    ∀ (keys : List String) (red : Record), k ∉ keys →
      lookup (keys.foldl (comboRedact data) red) k = lookup red k := by
  intro keys
  induction keys with
  | nil => intro red _; rfl
  | cons key tl ih =>
    intro red hk
    simp only [List.mem_cons, not_or] at hk
    simp only [List.foldl_cons]
    rw [ih _ hk.2]
    exact comboRedact_lookup_ne data red key k hk.1

theorem process_record_eq_some (data : Record) :
    ∃ out, process_record data = some out := by
  obtain ⟨⟨red, flag⟩, h⟩ := sp_some data data false
  unfold process_record
  rw [h]
  dsimp only
  split_ifs
  · exact ⟨_, rfl⟩
  · exact ⟨_, rfl⟩

end PII

namespace PII

/-! ### Lemmas about Python split on a separator -/

theorem splitOnGo_length (sep : Char) :
    ∀ (cs acc : List Char), (splitOnGo sep cs acc).length = cs.count sep + 1 := by
  intro cs
  induction cs with
  | nil => intro acc; simp [splitOnGo]
  | cons c rest ih =>
    intro acc
    by_cases hc : c = sep
    · subst hc
      simp only [splitOnGo, beq_self_eq_true, if_true, List.length_cons, ih,
        List.count_cons, beq_self_eq_true]
    · have h1 : (c == sep) = false := beq_eq_false_iff_ne.mpr hc
      have h2 : (sep == c) = false := beq_eq_false_iff_ne.mpr fun e => hc e.symm
      simp only [splitOnGo, h1, Bool.false_eq_true, if_false, ih, List.count_cons, h2]

theorem splitOnGo_no_sep (sep : Char) :
    ∀ (cs acc : List Char), sep ∉ cs → splitOnGo sep cs acc = [acc.reverse ++ cs] := by
  intro cs
  induction cs with
  | nil => intro acc _; simp [splitOnGo]
  | cons c rest ih =>
    intro acc h
    simp only [List.mem_cons, not_or] at h
    have h1 : (c == sep) = false := beq_eq_false_iff_ne.mpr fun e => h.1 e.symm
    simp only [splitOnGo, h1, Bool.false_eq_true, if_false]
    rw [ih _ h.2]
    simp

theorem splitOn_pair (sep : Char) (u d : List Char) (hu : sep ∉ u) (hd : sep ∉ d) :
    pySplitOn sep (u ++ sep :: d) = [u, d] := by
  have main : ∀ (u' acc : List Char), sep ∉ u' →
      splitOnGo sep (u' ++ sep :: d) acc = (acc.reverse ++ u') :: splitOnGo sep d [] := by
    intro u'
    induction u' with
    | nil => intro acc _; simp [splitOnGo]
    | cons c rest ih =>
      intro acc h
      simp only [List.mem_cons, not_or] at h
      have h1 : (c == sep) = false := beq_eq_false_iff_ne.mpr fun e => h.1 e.symm
      simp only [List.cons_append, splitOnGo, h1, Bool.false_eq_true, if_false]
      refine (ih (c :: acc) h.2).trans ?_
      simp
  unfold pySplitOn
  rw [main u [] hu, splitOnGo_no_sep sep d [] hd]
  simp

end PII

namespace PII

/-! ### Claim C7: the generic-identifier transform -/

/-- Claim C7, counterexample: the claim's example output `joXXXXXXe@mail.com`
(six `X`s) is wrong; the transform preserves the local part's length, so
`john.doe` (8 characters) is masked with five `X`s, not six. -/
theorem C7_counterexample :
    redact_generic_id "john.doe@mail.com" ≠ "joXXXXXXe@mail.com" := by decide

/-- Claim C7 (amended): on a value `user@domain` with exactly one `@`, the
generic-identifier transform keeps the first 2 and last 1 characters of the
local part and masks the middle with `X`s preserving its length (a single
`X` replacing the whole local part when it has at most 2 characters), and
keeps the domain unchanged; in particular `john.doe@mail.com` maps to
`joXXXXXe@mail.com` (five `X`s), not `joXXXXXXe@mail.com`. -/
theorem C7_generic_id_local_mask (value : String) (user domain : List Char)
    (hv : value.data = user ++ '@' :: domain)
    (hu : '@' ∉ user) (hd : '@' ∉ domain) :
    redact_generic_id value =
      if 2 < user.length then
        ⟨user.take 2 ++ List.replicate (user.length - 3) 'X' ++
          user.drop (user.length - 1) ++ '@' :: domain⟩
      else ⟨'X' :: '@' :: domain⟩ := by
  unfold redact_generic_id
  rw [hv, splitOn_pair '@' user domain hu hd]

/-- Claim C7, witness: the amended transform description evaluated at
`john.doe@mail.com`. -/
theorem C7_witness : redact_generic_id "john.doe@mail.com" = "joXXXXXe@mail.com" :=
  (C7_generic_id_local_mask "john.doe@mail.com" "john.doe".data "mail.com".data
    rfl (by decide) (by decide)).trans (by decide)

/-! ### Claim C8: unparseable input falls back to the placeholder -/

/-- Claim C8: whenever the value does not contain exactly one `@`, splitting
produces a number of pieces other than two, the tuple unpacking raises
`ValueError`, and the transform returns the fixed placeholder. -/
theorem C8_generic_id_placeholder (value : String)
    (h : value.data.count '@' ≠ 1) :
    redact_generic_id value = "[REDACTED_ID]" := by
  have hlen : (pySplitOn '@' value.data).length ≠ 2 := by
    rw [show pySplitOn '@' value.data = splitOnGo '@' value.data [] from rfl,
      splitOnGo_length]
    omega
  unfold redact_generic_id
  rcases hl : pySplitOn '@' value.data with _ | ⟨a, _ | ⟨b, _ | ⟨c, t⟩⟩⟩
  · rfl
  · rfl
  · exact absurd (by simp [hl] : (pySplitOn '@' value.data).length = 2) hlen
  · rfl

/-- Claim C8, witness: a value with no `@` at all maps to the placeholder. -/
theorem C8_witness : redact_generic_id "no-at-sign" = "[REDACTED_ID]" :=
  C8_generic_id_placeholder "no-at-sign" (by decide)

/-! ### Claim C9: a 3-character local part is disclosed unchanged -/

/-- Claim C9: on a value `user@domain` with exactly one `@` whose local part
has exactly 3 characters, the mask length `len(user) - 3` is zero, so the
transform returns the input unchanged and discloses the original value. -/
theorem C9_three_char_local (value : String) (user domain : List Char)
    (hv : value.data = user ++ '@' :: domain)
    (hu : '@' ∉ user) (hd : '@' ∉ domain) (hlen : user.length = 3) :
    redact_generic_id value = value := by
  have h7 : redact_generic_id value =
      if 2 < user.length then
        ⟨user.take 2 ++ List.replicate (user.length - 3) 'X' ++
          user.drop (user.length - 1) ++ '@' :: domain⟩
      else ⟨'X' :: '@' :: domain⟩ := by
    unfold redact_generic_id
    rw [hv, splitOn_pair '@' user domain hu hd]
  rw [h7, hlen]
  norm_num
  rw [← hv]

/-- Claim C9, witness: `abc@x.co` is returned unchanged by the transform. -/
theorem C9_witness : redact_generic_id "abc@x.co" = "abc@x.co" :=
  C9_three_char_local "abc@x.co" "abc".data "x.co".data rfl (by decide) (by decide) rfl

end PII

namespace PII

/-! ### Claim C4: totality of the processor -/

/-- Claim C4: for every record, `process_record` returns normally (no
exception escapes): the only fallible transform, `redact_passport`, is
invoked only on values matched by `PASSPORT_REGEX`, which are non-empty. -/
theorem C4_no_exception (data : Record) : (process_record data).isSome = true := by
  obtain ⟨out, h⟩ := process_record_eq_some data
  rw [h]
  rfl

/-! ### Claim C1: standalone detection and the boundary of prefix matching -/

/-- Claim C1, counterexample: `phone = "9876543210extra"` is NOT classified
as a valid phone: the trailing `\b` of `PHONE_REGEX` fails before the word
character `e`, so the record passes through unchanged with `foundPII =
false`, contradicting the claim's "trailing characters ... tolerated" and
its explicit example. -/
theorem C1_counterexample :
    process_record [("phone", Value.str "9876543210extra")] =
      some ([("phone", Value.str "9876543210extra")], false) := rfl

/-- Claim C1 (amended): a string value under a registered standalone field
name is marked as PII (record flagged, value replaced by the key's
transform) whenever the value matches the key's validator anchored at the
start of the string; trailing characters are tolerated only when the
character immediately after the match is not a word character (the
validators for phone/contact/aadhar/passport end in `\b`), so
`"9876543210 ext"` is classified while `"9876543210extra"` is not. -/
theorem C1_standalone_detection (data : Record) (k s : String)
    (hnd : (data.map Prod.fst).Nodup)
    (hs : lookup data k = some (Value.str s))
    (hm : standaloneMatch k s = true) :
    ∃ out r, process_record data = some (out, true) ∧
      redactStandalone k s = some r ∧ lookup out k = some (Value.str r) := by
  have hmem := lookup_mem data k _ hs
  have hkeys := lookup_mem_keys data k _ hs
  obtain ⟨red', r, hsp, hrs, hlook⟩ := sp_hit data k s data false hnd hmem hm hkeys
  have hnc : k ∉ COMBINATORIAL_PII_FIELDS := by
    have hkm := standaloneMatch_mem k s hm
    simp only [STANDALONE_PII_FIELDS, List.mem_cons, List.not_mem_nil, or_false] at hkm
    rcases hkm with rfl | rfl | rfl | rfl | rfl <;> decide
  have hpr : process_record data =
      if 2 ≤ (COMBINATORIAL_PII_FIELDS.filter (comboEligible data)).length then
        some ((COMBINATORIAL_PII_FIELDS.filter (comboEligible data)).foldl
          (comboRedact data) red', true)
      else some (red', true) := by
    unfold process_record
    rw [hsp]
  by_cases hc : 2 ≤ (COMBINATORIAL_PII_FIELDS.filter (comboEligible data)).length
  · rw [if_pos hc] at hpr
    refine ⟨_, r, hpr, hrs, ?_⟩
    rw [comboFold_frame data k _ red' fun hmc => hnc (List.mem_of_mem_filter hmc)]
    exact hlook
  · rw [if_neg hc] at hpr
    exact ⟨red', r, hpr, hrs, hlook⟩

/-- Claim C1, witness: `"9876543210 ext"` (trailing characters after a
non-word character) is classified and redacted as a phone. -/
theorem C1_witness :
    ∃ out r, process_record [("phone", Value.str "9876543210 ext")] = some (out, true) ∧
      redactStandalone "phone" "9876543210 ext" = some r ∧
      lookup out "phone" = some (Value.str r) :=
  C1_standalone_detection [("phone", Value.str "9876543210 ext")] "phone"
    "9876543210 ext" (by decide) rfl rfl

/-! ### Claim C5: ten-digit phone detection and its redaction shape -/

/-- Claim C5: a record whose `phone` field holds a string of exactly 10
digits yields `foundPII = true` and the phone value redacted to the first 2
characters, six `X`s, and the last 2 characters. -/
theorem C5_ten_digit_phone (data : Record) (s : String)
    (hnd : (data.map Prod.fst).Nodup)
    (hs : lookup data "phone" = some (Value.str s))
    (hlen : s.data.length = 10) (hdig : s.data.all Char.isDigit = true) :
    ∃ out, process_record data = some (out, true) ∧
      lookup out "phone" =
        some (Value.str ⟨s.data.take 2 ++ "XXXXXX".data ++ s.data.drop 8⟩) := by
  have hmem := lookup_mem data "phone" _ hs
  have hkeys := lookup_mem_keys data "phone" _ hs
  have hmatch : standaloneMatch "phone" s = true := by
    have heq : standaloneMatch "phone" s = phoneMatch s := rfl
    have h1 : s.data.take 10 = s.data := List.take_of_length_le (by omega)
    have h2 : s.data.drop 10 = [] := List.drop_eq_nil_of_le (by omega)
    rw [heq]
    simp [phoneMatch, h1, h2, hlen, hdig, noWordNext]
  obtain ⟨red', r, hsp, hrs, hlook⟩ :=
    sp_hit data "phone" s data false hnd hmem hmatch hkeys
  have hr : r = redact_phone s := by
    have hr' : redactStandalone "phone" s = some (redact_phone s) := rfl
    rw [hr'] at hrs
    exact (Option.some.inj hrs).symm
  subst hr
  have hrp : redact_phone s = ⟨s.data.take 2 ++ "XXXXXX".data ++ s.data.drop 8⟩ := by
    unfold redact_phone
    rw [hlen]
  have hnc : "phone" ∉ COMBINATORIAL_PII_FIELDS := by decide
  have hpr : process_record data =
      if 2 ≤ (COMBINATORIAL_PII_FIELDS.filter (comboEligible data)).length then
        some ((COMBINATORIAL_PII_FIELDS.filter (comboEligible data)).foldl
          (comboRedact data) red', true)
      else some (red', true) := by
    unfold process_record
    rw [hsp]
  by_cases hc : 2 ≤ (COMBINATORIAL_PII_FIELDS.filter (comboEligible data)).length
  · rw [if_pos hc] at hpr
    refine ⟨_, hpr, ?_⟩
    rw [comboFold_frame data "phone" _ red' fun hmc => hnc (List.mem_of_mem_filter hmc)]
    rw [hlook, hrp]
  · rw [if_neg hc] at hpr
    refine ⟨red', hpr, ?_⟩
    rw [hlook, hrp]

/-- Claim C5, witness: a record whose phone field is "9876543210". -/
theorem C5_witness :
    ∃ out, process_record [("phone", Value.str "9876543210")] = some (out, true) ∧
      lookup out "phone" = some (Value.str ⟨"9876543210".data.take 2 ++
        "XXXXXX".data ++ "9876543210".data.drop 8⟩) :=
  C5_ten_digit_phone [("phone", Value.str "9876543210")] "9876543210"
    (by decide) rfl rfl rfl

end PII

namespace PII

/-! ### Claim C2: non-string values -/

/-- Claim C2, counterexample: non-string values ARE redacted by the
combinatorial pass, which stringifies `data[key]` with `str(...)`: two
truthy numbers under `address` and `device_id` meet the threshold and are
replaced by string placeholders. -/
theorem C2_counterexample :
    process_record [("address", Value.num 123), ("device_id", Value.num 45)] =
      some ([("address", Value.str "[REDACTED_3_CHARS]"),
             ("device_id", Value.str "[REDACTED_2_CHARS]")], true) ∧
    some (Value.num 123) ≠ some (Value.str "[REDACTED_3_CHARS]") :=
  ⟨rfl, fun h => Value.noConfusion (Option.some.inj h)⟩

/-- Claim C2 (amended): the standalone pass skips non-string values, and a
field outside the combinatorial field list whose value is not a string
always passes through unchanged; but a non-string value under a
combinatorial field name can still be stringified and redacted when the
threshold is met. -/
theorem C2_nonstring_passthrough (data : Record) (k : String) (v : Value)
    (hnd : (data.map Prod.fst).Nodup)
    (hv : lookup data k = some v) (hstr : isStr v = false)
    (hkc : k ∉ COMBINATORIAL_PII_FIELDS) :
    ∃ out b, process_record data = some (out, b) ∧ lookup out k = some v := by
  have hfr : ∀ s, (k, Value.str s) ∈ data → standaloneMatch k s = false := by
    intro s hmem'
    have h := lookup_eq_of_mem data k _ hnd hmem'
    rw [hv] at h
    rw [Option.some.inj h] at hstr
    simp [isStr] at hstr
  obtain ⟨⟨red, flag⟩, hsp⟩ := sp_some data data false
  have hlk : lookup red k = lookup data k := sp_frame data k hfr data false red flag hsp
  have hpr : process_record data =
      if 2 ≤ (COMBINATORIAL_PII_FIELDS.filter (comboEligible data)).length then
        some ((COMBINATORIAL_PII_FIELDS.filter (comboEligible data)).foldl
          (comboRedact data) red, true)
      else some (red, flag) := by
    unfold process_record
    rw [hsp]
  by_cases hc : 2 ≤ (COMBINATORIAL_PII_FIELDS.filter (comboEligible data)).length
  · rw [if_pos hc] at hpr
    refine ⟨_, true, hpr, ?_⟩
    rw [comboFold_frame data k _ red fun hmc => hkc (List.mem_of_mem_filter hmc),
      hlk, hv]
  · rw [if_neg hc] at hpr
    exact ⟨red, flag, hpr, by rw [hlk, hv]⟩

/-- Claim C2, witness: a numeric value under a non-combinatorial field name
passes through unchanged. -/
theorem C2_witness :
    ∃ out b, process_record [("count", Value.num 7)] = some (out, b) ∧
      lookup out "count" = some (Value.num 7) :=
  C2_nonstring_passthrough [("count", Value.num 7)] "count" (Value.num 7)
    (by decide) rfl rfl (by decide)

/-! ### Claim C3: the upi_id validator -/

/-- Claim C3, counterexample: `"a@b@c"` contains two `@` but IS classified
as standalone PII under `upi_id` — `UPI_REGEX` matches the prefix `a@b` and
`re.match` tolerates the rest; the redaction then falls back to the
placeholder because `split('@')` yields three pieces. -/
theorem C3_counterexample :
    process_record [("upi_id", Value.str "a@b@c")] =
      some ([("upi_id", Value.str "[REDACTED_ID]")], true) := rfl

/-- Claim C3 (amended): a string value under `upi_id` is classified as
standalone PII exactly when it starts with a non-empty run of word, dot or
hyphen characters, followed by `@`, followed by at least one more such
character (`upiMatch`); trailing characters — including a second `@` — are
tolerated.  When classified, the value is replaced by the
generic-identifier transform and the record is flagged; otherwise the value
is left unchanged by the standalone pass. -/
theorem C3_upi_classification (data : Record) (s : String)
    (hnd : (data.map Prod.fst).Nodup)
    (hs : lookup data "upi_id" = some (Value.str s)) :
    ∃ out b, process_record data = some (out, b) ∧
      lookup out "upi_id" =
        some (Value.str (if upiMatch s then redact_generic_id s else s)) ∧
      (upiMatch s = true → b = true) := by
  have hmem := lookup_mem data "upi_id" _ hs
  have hkeys := lookup_mem_keys data "upi_id" _ hs
  have heq : standaloneMatch "upi_id" s = upiMatch s := rfl
  have hnc : "upi_id" ∉ COMBINATORIAL_PII_FIELDS := by decide
  cases hu : upiMatch s with
  | true =>
    have hm : standaloneMatch "upi_id" s = true := heq.trans hu
    obtain ⟨red', r, hsp, hrs, hlook⟩ :=
      sp_hit data "upi_id" s data false hnd hmem hm hkeys
    have hr : r = redact_generic_id s := by
      have hr' : redactStandalone "upi_id" s = some (redact_generic_id s) := rfl
      rw [hr'] at hrs
      exact (Option.some.inj hrs).symm
    subst hr
    have hpr : process_record data =
        if 2 ≤ (COMBINATORIAL_PII_FIELDS.filter (comboEligible data)).length then
          some ((COMBINATORIAL_PII_FIELDS.filter (comboEligible data)).foldl
            (comboRedact data) red', true)
        else some (red', true) := by
      unfold process_record
      rw [hsp]
    by_cases hc : 2 ≤ (COMBINATORIAL_PII_FIELDS.filter (comboEligible data)).length
    · rw [if_pos hc] at hpr
      refine ⟨_, true, hpr, ?_, fun _ => rfl⟩
      rw [comboFold_frame data "upi_id" _ red'
        fun hmc => hnc (List.mem_of_mem_filter hmc), hlook]
      simp
    · rw [if_neg hc] at hpr
      exact ⟨red', true, hpr, by rw [hlook]; simp, fun _ => rfl⟩
  | false =>
    have hfr : ∀ s', ("upi_id", Value.str s') ∈ data →
        standaloneMatch "upi_id" s' = false := by
      intro s' hmem'
      have h := lookup_eq_of_mem data "upi_id" _ hnd hmem'
      rw [hs] at h
      have hss : s = s' := by
        have := Option.some.inj h
        exact Value.str.inj this
      rw [← hss, heq, hu]
    obtain ⟨⟨red, flag⟩, hsp⟩ := sp_some data data false
    have hlk : lookup red "upi_id" = lookup data "upi_id" :=
      sp_frame data "upi_id" hfr data false red flag hsp
    have hpr : process_record data =
        if 2 ≤ (COMBINATORIAL_PII_FIELDS.filter (comboEligible data)).length then
          some ((COMBINATORIAL_PII_FIELDS.filter (comboEligible data)).foldl
            (comboRedact data) red, true)
        else some (red, flag) := by
      unfold process_record
      rw [hsp]
    by_cases hc : 2 ≤ (COMBINATORIAL_PII_FIELDS.filter (comboEligible data)).length
    · rw [if_pos hc] at hpr
      refine ⟨_, true, hpr, ?_, fun _ => rfl⟩
      rw [comboFold_frame data "upi_id" _ red
        fun hmc => hnc (List.mem_of_mem_filter hmc), hlk, hs]
      simp
    · rw [if_neg hc] at hpr
      refine ⟨red, flag, hpr, by rw [hlk, hs]; simp, fun habs => ?_⟩
      exact absurd habs (by simp)

/-- Claim C3, witness: `"john@okbank"` under `upi_id` is classified and
redacted. -/
theorem C3_witness :
    ∃ out b, process_record [("upi_id", Value.str "john@okbank")] = some (out, b) ∧
      lookup out "upi_id" = some (Value.str
        (if upiMatch "john@okbank" then redact_generic_id "john@okbank"
         else "john@okbank")) ∧
      (upiMatch "john@okbank" = true → b = true) :=
  C3_upi_classification [("upi_id", Value.str "john@okbank")] "john@okbank"
    (by decide) rfl

end PII

namespace PII

/-! ### Claim C6: idempotent passthrough for non-PII records -/

/-- Claim C6: when no string value in the record matches its key's
standalone validator and fewer than two combinatorial fields are eligible,
`process_record` returns the record unchanged (the very same mapping) with
`foundPII = false`. -/
theorem C6_no_pii_passthrough (data : Record)
    (hns : data.all (fun kv =>
      match kv.2 with
      | Value.str s => !standaloneMatch kv.1 s
      | _ => true) = true)
    (hcc : (COMBINATORIAL_PII_FIELDS.filter (comboEligible data)).length < 2) :
    process_record data = some (data, false) := by
  have hfr : ∀ k s, (k, Value.str s) ∈ data → standaloneMatch k s = false := by
    intro k s hmem
    have h := List.all_eq_true.mp hns _ hmem
    simpa using h
  have hpr : process_record data =
      if 2 ≤ (COMBINATORIAL_PII_FIELDS.filter (comboEligible data)).length then
        some ((COMBINATORIAL_PII_FIELDS.filter (comboEligible data)).foldl
          (comboRedact data) data, true)
      else some (data, false) := by
    unfold process_record
    rw [sp_id data hfr data false]
  rw [hpr, if_neg (by omega)]

/-- Claim C6, witness: a record with one innocuous field and a single bare
name (never eligible) passes through unchanged. -/
theorem C6_witness :
    process_record [("note", Value.str "hello"), ("name", Value.str "Madonna")] =
      some ([("note", Value.str "hello"), ("name", Value.str "Madonna")], false) :=
  C6_no_pii_passthrough
    [("note", Value.str "hello"), ("name", Value.str "Madonna")] rfl (by decide)

/-! ### Claim C10: fields outside both rule tables are never modified -/

/-- Claim C10: a field whose name is in neither the standalone table nor
the combinatorial field list maps to its original value in the output,
whatever its value and whatever the rest of the record contains. -/
theorem C10_other_fields_frame (data : Record) (k : String)
    (h1 : k ∉ STANDALONE_PII_FIELDS) (h2 : k ∉ COMBINATORIAL_PII_FIELDS) :
    ∃ out b, process_record data = some (out, b) ∧ lookup out k = lookup data k := by
  obtain ⟨⟨red, flag⟩, hsp⟩ := sp_some data data false
  have hfr : ∀ s, (k, Value.str s) ∈ data → standaloneMatch k s = false :=
    fun s _ => standaloneMatch_not_mem k h1 s
  have hlk : lookup red k = lookup data k := sp_frame data k hfr data false red flag hsp
  have hpr : process_record data =
      if 2 ≤ (COMBINATORIAL_PII_FIELDS.filter (comboEligible data)).length then
        some ((COMBINATORIAL_PII_FIELDS.filter (comboEligible data)).foldl
          (comboRedact data) red, true)
      else some (red, flag) := by
    unfold process_record
    rw [hsp]
  by_cases hc : 2 ≤ (COMBINATORIAL_PII_FIELDS.filter (comboEligible data)).length
  · rw [if_pos hc] at hpr
    refine ⟨_, true, hpr, ?_⟩
    rw [comboFold_frame data k _ red fun hmc => h2 (List.mem_of_mem_filter hmc), hlk]
  · rw [if_neg hc] at hpr
    exact ⟨red, flag, hpr, hlk⟩

/-- Claim C10, witness: a `color` field is untouched. -/
theorem C10_witness :
    ∃ out b, process_record [("color", Value.str "blue")] = some (out, b) ∧
      lookup out "color" = lookup [("color", Value.str "blue")] "color" :=
  C10_other_fields_frame [("color", Value.str "blue")] "color" (by decide) (by decide)

end PII
